import Mathlib

/-!
Shallow embedding of `mgenov/epgtool` (src/main.go): the EPG event
reconciliation engine.  The per-event loop of `main` (parse timestamps,
compute the identity key, registry dedup, title selection, overlap test,
accept/reject, per-channel sort) is embedded as pure Lean functions; the
two fatal exits (`log.Fatalf` on a timestamp parse failure and the runtime
panic on `event.Title[0]` for an empty title list) are modelled as the
error cases of `Except`.
-/

namespace Epg

/-! ### Decimal formatting: the embedding of Go's `fmt.Sprintf("%d", n)` -/

/-- One decimal digit as a character. -/
def digitChar : Nat → Char
  | 0 => '0' | 1 => '1' | 2 => '2' | 3 => '3' | 4 => '4'
  | 5 => '5' | 6 => '6' | 7 => '7' | 8 => '8' | _ => '9'

/-- Is `c` an ASCII decimal digit? -/
def isDigitCh (c : Char) : Bool := 48 ≤ c.toNat && c.toNat ≤ 57

/-- Numeric value of an ASCII digit character. -/
def dval (c : Char) : Nat := c.toNat - 48

/-- Big-endian decimal digits with an explicit fuel bound (structural
recursion so that terms reduce in the kernel). -/
def natDecAux : Nat → Nat → List Char
  | 0, _ => []
  | fuel + 1, n =>
    if n < 10 then [digitChar n] else natDecAux fuel (n / 10) ++ [digitChar (n % 10)]

/-- Big-endian canonical decimal representation of a natural number,
exactly the digit string `fmt.Sprintf("%d", n)` produces for `n ≥ 0`. -/
def natDec (n : Nat) : List Char := natDecAux (n + 1) n

theorem natDecAux_congr : ∀ {fuel₁ : Nat} {fuel₂ n : Nat}, n < fuel₁ → n < fuel₂ →
    natDecAux fuel₁ n = natDecAux fuel₂ n := by
  intro fuel₁
  induction fuel₁ with
  | zero => intro fuel₂ n h1 h2; omega
  | succ f ih =>
    intro fuel₂ n h1 h2
    cases fuel₂ with
    | zero => omega
    | succ f₂ =>
      simp only [natDecAux]
      split
      · rfl
      · rw [ih (by omega : n / 10 < f) (by omega : n / 10 < f₂)]

theorem natDec_unfold (n : Nat) :
    natDec n = if n < 10 then [digitChar n] else natDec (n / 10) ++ [digitChar (n % 10)] := by
  show natDecAux (n + 1) n = _
  simp only [natDecAux]
  split
  · rfl
  · rw [natDecAux_congr (by omega : n / 10 < n) (by omega : n / 10 < n / 10 + 1)]
    rfl

/-- Canonical decimal representation of an integer, the embedding of
Go's `fmt.Sprintf("%d", i)` for `int64` values. -/
def intDec (i : Int) : List Char :=
  if i < 0 then '-' :: natDec (-i).toNat else natDec i.toNat

theorem dval_digitChar {d : Nat} (h : d < 10) : dval (digitChar d) = d := by
  interval_cases d <;> rfl

theorem isDigitCh_digitChar {d : Nat} (h : d < 10) : isDigitCh (digitChar d) = true := by
  interval_cases d <;> rfl

theorem natDec_ne_nil (n : Nat) : natDec n ≠ [] := by
  rw [natDec_unfold]
  split <;> simp

theorem natDec_all_digits (n : Nat) : ∀ c ∈ natDec n, isDigitCh c = true := by
  induction n using Nat.strong_induction_on with
  | _ n ih =>
    rw [natDec_unfold]
    split
    next h =>
      intro c hc
      simp only [List.mem_singleton] at hc
      subst hc
      exact isDigitCh_digitChar h
    next h =>
      intro c hc
      rcases List.mem_append.mp hc with h1 | h2
      · exact ih (n / 10) (Nat.div_lt_self (by omega) (by omega)) c h1
      · simp only [List.mem_singleton] at h2
        subst h2
        exact isDigitCh_digitChar (Nat.mod_lt _ (by omega))

theorem not_isDigitCh_minus : isDigitCh '-' = false := by rfl

/-- Decimal evaluation (big-endian), starting from accumulator `a`. -/
def evalDec (a : Nat) (l : List Char) : Nat :=
  l.foldl (fun acc c => 10 * acc + dval c) a

theorem evalDec_append (a : Nat) (l₁ l₂ : List Char) :
    evalDec a (l₁ ++ l₂) = evalDec (evalDec a l₁) l₂ := by
  simp [evalDec, List.foldl_append]

theorem evalDec_natDec (a n : Nat) :
    evalDec a (natDec n) = a * 10 ^ (natDec n).length + n := by
  induction n using Nat.strong_induction_on generalizing a with
  | _ n ih =>
    rw [natDec_unfold]
    split
    next h =>
      simp only [evalDec, List.foldl, List.length_singleton, pow_one, dval_digitChar h]
      omega
    next h =>
      have hlen : (natDec (n / 10) ++ [digitChar (n % 10)]).length
          = (natDec (n / 10)).length + 1 := by simp
      rw [evalDec_append, ih (n / 10) (Nat.div_lt_self (by omega) (by omega)) a, hlen]
      simp only [evalDec, List.foldl]
      rw [dval_digitChar (Nat.mod_lt n (by omega : 0 < 10))]
      have hp : a * 10 ^ ((natDec (n / 10)).length + 1)
          = 10 * (a * 10 ^ (natDec (n / 10)).length) := by ring
      rw [hp]
      omega

theorem natDec_injective : Function.Injective natDec := by
  intro m n h
  have hm := evalDec_natDec 0 m
  have hn := evalDec_natDec 0 n
  rw [h] at hm
  omega

theorem natDec_head_digit (n : Nat) :
    ∃ c cs, natDec n = c :: cs ∧ isDigitCh c = true := by
  rcases hd : natDec n with _ | ⟨c, cs⟩
  · exact absurd hd (natDec_ne_nil n)
  · exact ⟨c, cs, rfl, natDec_all_digits n c (hd ▸ List.mem_cons_self c cs)⟩

/-! ### The identity key `fmt.Sprintf("%s-%s", id, event.ChannelName)`
(src/main.go line 195) and its unique decodability. -/

/-- The decimal part of the identity as a `String`. -/
def intDecS (i : Int) : String := ⟨intDec i⟩

/-- The registry key `idc` of src/main.go line 195: the decimal UTC Unix
seconds of the parsed start time, a `-` separator, and the channel name. -/
def keyS (i : Int) (ch : String) : String := intDecS i ++ "-" ++ ch

/-- Splits a character list at the first non-digit, which must be the `-`
separator; evaluates the digit run. -/
def decodeKeyNat (l : List Char) : Option (Nat × List Char) :=
  match l.dropWhile isDigitCh with
  | '-' :: ch => some (evalDec 0 (l.takeWhile isDigitCh), ch)
  | _ => none

/-- Decodes an identity key back into the integer and the channel name. -/
def decodeKey (l : List Char) : Option (Int × List Char) :=
  match l with
  | '-' :: rest => (decodeKeyNat rest).map (fun p => (-(p.1 : Int), p.2))
  | _ => (decodeKeyNat l).map (fun p => ((p.1 : Int), p.2))

theorem takeWhile_all_append {p : Char → Bool} {xs : List Char} {y : Char} {ys : List Char}
    (hxs : ∀ x ∈ xs, p x = true) (hy : p y = false) :
    (xs ++ y :: ys).takeWhile p = xs ∧ (xs ++ y :: ys).dropWhile p = y :: ys := by
  induction xs with
  | nil => simp [List.takeWhile, List.dropWhile, hy]
  | cons a as ih =>
    have ha : p a = true := hxs a (List.mem_cons_self a as)
    have ih' := ih (fun x hx => hxs x (List.mem_cons_of_mem a hx))
    simp [List.takeWhile, List.dropWhile, ha, ih'.1, ih'.2]

theorem decodeKeyNat_natDec (n : Nat) (ch : List Char) :
    decodeKeyNat (natDec n ++ '-' :: ch) = some (n, ch) := by
  have h := @takeWhile_all_append isDigitCh (natDec n) '-' ch
    (natDec_all_digits n) not_isDigitCh_minus
  have he := evalDec_natDec 0 n
  simp only [decodeKeyNat, h.1, h.2, he]
  simp

theorem decodeKey_key (i : Int) (ch : List Char) :
    decodeKey (intDec i ++ '-' :: ch) = some (i, ch) := by
  rw [intDec]
  split
  next h =>
    simp only [List.cons_append, decodeKey, decodeKeyNat_natDec, Option.map_some]
    have : ((-i).toNat : Int) = -i := Int.toNat_of_nonneg (by omega)
    simp [this]
  next h =>
    obtain ⟨c, cs, hcc, hdig⟩ := natDec_head_digit i.toNat
    rw [hcc]
    have hcne : c ≠ '-' := by
      intro hc
      rw [hc] at hdig
      simp [not_isDigitCh_minus] at hdig
    simp only [decodeKey, List.cons_append]
    split
    next heq =>
      exfalso
      exact hcne (List.head_eq_of_cons_eq heq.symm).symm
    next =>
      rw [← List.cons_append, ← hcc, decodeKeyNat_natDec]
      have : (i.toNat : Int) = i := Int.toNat_of_nonneg (by omega)
      simp [this]

theorem keyOf_inj {i₁ i₂ : Int} {c₁ c₂ : List Char}
    (h : intDec i₁ ++ '-' :: c₁ = intDec i₂ ++ '-' :: c₂) : i₁ = i₂ ∧ c₁ = c₂ := by
  have h1 := decodeKey_key i₁ c₁
  have h2 := decodeKey_key i₂ c₂
  rw [h, h2] at h1
  simp at h1
  exact ⟨h1.1.symm, h1.2.symm⟩

theorem keyS_data (i : Int) (ch : String) :
    (keyS i ch).data = intDec i ++ '-' :: ch.data := by
  simp [keyS, intDecS, String.append]

theorem keyS_inj {i₁ i₂ : Int} {c₁ c₂ : String} (h : keyS i₁ c₁ = keyS i₂ c₂) :
    i₁ = i₂ ∧ c₁ = c₂ := by
  have hd : (keyS i₁ c₁).data = (keyS i₂ c₂).data := by rw [h]
  rw [keyS_data, keyS_data] at hd
  obtain ⟨h1, h2⟩ := keyOf_inj hd
  exact ⟨h1, String.ext h2⟩

/-! ### Timestamps.  `time.Parse(inDateLayout, s)` for the fixed layout
`"20060102150405 -0700"` (src/main.go line 19) followed by `.UTC().Unix()`,
embedded as a partial function to UTC Unix seconds; and
`.UTC().Format(outDateLayout)` for `"2006-01-02T15:04:05Z"` (line 20). -/

/-- Leap year rule of the proleptic Gregorian calendar (Go `isLeap`). -/
def isLeap (y : Nat) : Bool := y % 4 == 0 && (y % 100 != 0 || y % 400 == 0)

/-- Number of days in a month (Go `daysIn`), used by `time.Parse` to
validate the day component. -/
def daysIn (y m : Nat) : Nat :=
  if m == 2 then (if isLeap y then 29 else 28)
  else if m == 4 || m == 6 || m == 9 || m == 11 then 30
  else 31

/-- Days from the Unix epoch 1970-01-01 to the civil date `y-m-d`
(proleptic Gregorian), the calendar arithmetic underlying Go `time`. -/
def daysFromCivil (y m d : Int) : Int :=
  let y' := if m ≤ 2 then y - 1 else y
  let era := Int.fdiv y' 400
  let yoe := y' - era * 400
  let mp := if m ≤ 2 then m + 9 else m - 3
  let doy := Int.fdiv (153 * mp + 2) 5 + d - 1
  let doe := yoe * 365 + Int.fdiv yoe 4 - Int.fdiv yoe 100 + doy
  era * 146097 + doe - 719468

/-- Civil date `(y, m, d)` of a day count from the Unix epoch; inverse of
`daysFromCivil`. -/
def civilFromDays (z : Int) : Int × Int × Int :=
  let z' := z + 719468
  let era := Int.fdiv z' 146097
  let doe := z' - era * 146097
  let yoe := Int.fdiv (doe - Int.fdiv doe 1460 + Int.fdiv doe 36524 - Int.fdiv doe 146096) 365
  let y := yoe + era * 400
  let doy := doe - (365 * yoe + Int.fdiv yoe 4 - Int.fdiv yoe 100)
  let mp := Int.fdiv (5 * doy + 2) 153
  let d := doy - Int.fdiv (153 * mp + 2) 5 + 1
  let m := if mp < 10 then mp + 3 else mp - 9
  (if m ≤ 2 then y + 1 else y, m, d)

/-- The embedding of `time.Parse("20060102150405 -0700", s).UTC().Unix()`:
`none` models the parse error (which `main` turns into `log.Fatalf`),
`some t` the UTC Unix seconds of the parsed instant.  `time.Parse`
requires the exact fixed-width lexical shape and validates month, day
(against the month length), hour, minute and second ranges. -/
def parseGoTime (s : String) : Option Int :=
  match s.data with
  | [y1, y2, y3, y4, a1, a2, b1, b2, h1, h2, m1, m2, c1, c2, sp, sg, o1, o2, o3, o4] =>
    if (isDigitCh y1 && isDigitCh y2 && isDigitCh y3 && isDigitCh y4 &&
        isDigitCh a1 && isDigitCh a2 && isDigitCh b1 && isDigitCh b2 &&
        isDigitCh h1 && isDigitCh h2 && isDigitCh m1 && isDigitCh m2 &&
        isDigitCh c1 && isDigitCh c2 && (sp == ' ') && (sg == '+' || sg == '-') &&
        isDigitCh o1 && isDigitCh o2 && isDigitCh o3 && isDigitCh o4) then
      let y := 1000 * dval y1 + 100 * dval y2 + 10 * dval y3 + dval y4
      let mo := 10 * dval a1 + dval a2
      let da := 10 * dval b1 + dval b2
      let ho := 10 * dval h1 + dval h2
      let mi := 10 * dval m1 + dval m2
      let se := 10 * dval c1 + dval c2
      if 1 ≤ mo && mo ≤ 12 && 1 ≤ da && da ≤ daysIn y mo &&
          ho ≤ 23 && mi ≤ 59 && se ≤ 59 then
        let offset : Int := (if sg == '-' then -1 else 1) *
          (3600 * (10 * dval o1 + dval o2) + 60 * (10 * dval o3 + dval o4))
        some (daysFromCivil y mo da * 86400 + 3600 * ho + 60 * mi + se - offset)
      else none
    else none
  | _ => none

/-- Zero-padded fixed-width decimal. -/
def padNat (n w : Nat) : List Char :=
  List.replicate (w - (natDec n).length) '0' ++ natDec n

/-- The embedding of `t.UTC().Format("2006-01-02T15:04:05Z")` on a UTC
Unix-seconds value. -/
def formatOut (t : Int) : String :=
  let days := Int.fdiv t 86400
  let secs := (t - days * 86400).toNat
  let c := civilFromDays days
  let yc := if c.1 < 0 then intDec c.1 else padNat c.1.toNat 4
  ⟨yc ++ '-' :: padNat c.2.1.toNat 2 ++ '-' :: padNat c.2.2.toNat 2 ++
    'T' :: padNat (secs / 3600) 2 ++ ':' :: padNat (secs % 3600 / 60) 2 ++
    ':' :: padNat (secs % 60) 2 ++ ['Z']⟩

/-! ### Go's `<` on strings (byte-wise lexicographic; on valid UTF-8 this
equals code-point lexicographic order), used by `byStartTime.Less`
(src/main.go line 280). -/

def goStrLtL : List Char → List Char → Bool
  | [], [] => false
  | [], _ :: _ => true
  | _ :: _, [] => false
  | a :: as, b :: bs =>
    if a.toNat < b.toNat then true
    else if b.toNat < a.toNat then false
    else goStrLtL as bs

/-- Go string comparison `s < t`. -/
def goStrLt (a b : String) : Bool := goStrLtL a.data b.data

theorem goStrLtL_nil_right (l : List Char) : goStrLtL l [] = false := by
  cases l <;> rfl

theorem goStrLtL_asymm : ∀ {a b : List Char},
    goStrLtL a b = true → goStrLtL b a = false := by
  intro a
  induction a with
  | nil => intro b _; exact goStrLtL_nil_right b
  | cons a0 as ih =>
    intro b hab
    cases b with
    | nil => simp [goStrLtL_nil_right] at hab
    | cons b0 bs =>
      simp only [goStrLtL] at hab ⊢
      split at hab
      next h1 =>
        split
        next h2 => exfalso; omega
        next h2 => rfl
      next h1 =>
        split at hab
        next => exact absurd hab (by simp)
        next h2 =>
          split
          next h3 => exfalso; omega
          next h3 => exact ih hab

theorem goStrLtL_nlt_trans : ∀ {a b c : List Char},
    goStrLtL b a = false → goStrLtL c b = false → goStrLtL c a = false := by
  intro a
  induction a with
  | nil =>
    intro b c hba hcb
    exact goStrLtL_nil_right c
  | cons a0 as ih =>
    intro b c hba hcb
    cases b with
    | nil => exact absurd hba (by simp [goStrLtL])
    | cons b0 bs =>
      cases c with
      | nil => exact absurd hcb (by simp [goStrLtL])
      | cons c0 cs =>
        simp only [goStrLtL] at hba hcb ⊢
        split at hba
        next => exact absurd hba (by simp)
        next h1 =>
          split at hcb
          next => exact absurd hcb (by simp)
          next h2 =>
            split at hba
            next h3 =>
              split
              next h5 => exfalso; omega
              next h5 =>
                split
                next => rfl
                next h6 => exfalso; omega
            next h3 =>
              split at hcb
              next h4 =>
                split
                next h5 => exfalso; omega
                next h5 =>
                  split
                  next => rfl
                  next h6 => exfalso; omega
              next h4 =>
                split
                next h5 => exfalso; omega
                next h5 =>
                  split
                  next => rfl
                  next => exact ih hba hcb

/-! ### Data model (src/main.go lines 36-105) -/

/-- A localized text variant (`<title lang="...">...</title>`). -/
structure title where
  Lang : String
  Name : String
deriving DecidableEq, Repr

/-- The `credits` element of a programme. -/
structure credits where
  Producers : List String
  Actors : List String
deriving DecidableEq, Repr

/-- One raw EPG event (`programme`, src/main.go lines 54-65). -/
structure programme where
  Start : String
  Stop : String
  ChannelName : String
  Description : title
  Title : List title
  Credits : credits
  Date : String
  Category : title
  Country : List String
  EpisodeNumber : String
deriving DecidableEq, Repr

/-- One row of the channel allow-list (`requestedChannel`). -/
structure requestedChannel where
  ID : String
  Name : String
deriving DecidableEq, Repr

/-- One accepted event in the output document (`outputEvent`). -/
structure outputEvent where
  ID : String
  Name : String
  StartTime : String
  EndTime : String
  Perex : String
  Description : String
  Actors : String
  Directors : String
  ProductionYear : String
  ProductionCountries : String
deriving DecidableEq, Repr

/-! ### The reconciliation engine: the per-event loop of `main`
(src/main.go lines 173-257). -/

/-- The two ways the loop aborts the whole run: `log.Fatalf` when a
timestamp fails to parse (lines 185-192), and the runtime panic of
`event.Title[0]` on an empty title list (line 210). -/
inductive RunError where
  | parseFail : String → RunError
  | emptyTitleList : RunError
deriving DecidableEq, Repr

/-- Mutable state threaded through the loop: the run-wide identity
registry `ids` (line 173), and the per-channel accepted intervals
`spans` (line 182), diagnostic map `eventByStartTime` (line 183),
accepted output sequence (line 254) and collision log (lines 223-233). -/
structure ChanState where
  ids : List (String × programme)
  spans : List (Int × Int)
  eventByStartTime : List (String × outputEvent)
  output : List outputEvent
  collisions : List (String × String × String × String)
deriving DecidableEq, Repr

/-- Go `strings.Join(l, ", ")`. -/
def joinSep : List String → String
  | [] => ""
  | x :: xs => xs.foldl (fun acc s => acc ++ ", " ++ s) x

/-- The title-selection loop of src/main.go lines 210-216: `t` starts as
`Title[0]` and every variant with `lang == "bg"` overwrites it, so the
last `bg` variant wins, else the first variant. -/
def chooseTitle (t0 : title) (l : List title) : title :=
  l.foldl (fun acc x => if x.Lang == "bg" then x else acc) t0

/-- Modelled from the spec: the half-open interval intersection test of
the external `senseyeio/spaniel` library (not vendored under src/),
which the spec states as `a.start < b.end && b.start < a.end`, with
touching intervals not overlapping.  `spans.IntersectionBetween` at
src/main.go line 218 returns a non-empty list exactly when the candidate
overlaps some accepted span under this test. -/
def overlapsB (a b : Int × Int) : Bool :=
  decide (a.1 < b.2) && decide (b.1 < a.2)

/-- The identity computed at src/main.go lines 194-195: decimal UTC Unix
seconds of the parsed start, `-`, channel name; defined only when the
start timestamp parses. -/
def identityOf (e : programme) : Option String :=
  (parseGoTime e.Start).map (fun n => keyS n e.ChannelName)

/-- The output record built for an accepted event (src/main.go lines
206-216 and 239-250): joined multi-value fields, the selected title, the
decimal-Unix-seconds `ID`, and the formatted UTC times. -/
def builtEvent (e : programme) (tl : List title) (t0 : title) (startT endT : Int) :
    outputEvent :=
  { ID := intDecS startT
    Name := (chooseTitle t0 tl).Name
    StartTime := formatOut startT
    EndTime := formatOut endT
    Perex := e.Description.Name
    Description := e.Description.Name
    Actors := joinSep e.Credits.Actors
    Directors := joinSep e.Credits.Producers
    ProductionYear := e.Date
    ProductionCountries := joinSep e.Country }

/-- The part of the loop body after the identity-registry check
(src/main.go lines 206-254): field joining, title selection (where the
`event.Title[0]` panic on an empty variant list lives), the interval
intersection test, and the accept/reject outcome. -/
def acceptOrReject (cid cname : String) (e : programme) (startT endT : Int)
    (st1 : ChanState) : Except RunError ChanState :=
  match e.Title with
  | [] => .error .emptyTitleList
  | t0 :: _ =>
    if st1.spans.any (fun sp => overlapsB sp (startT, endT)) then
      .ok { st1 with
        collisions := st1.collisions ++ [(cid, cname, e.Start, e.Stop)] }
    else
      .ok { st1 with
        spans := st1.spans ++ [(startT, endT)]
        eventByStartTime :=
          (formatOut endT, builtEvent e e.Title t0 startT endT) :: st1.eventByStartTime
        output := st1.output ++ [builtEvent e e.Title t0 startT endT] }

/-- One iteration of the per-event loop (src/main.go lines 184-255) on
event `e` of channel `(cid, cname)`: parse both timestamps (fatal on
failure), build the identity key, consult the registry (a hit with the
same channel name silently drops the event; a hit with a different
channel name would fall through without registering; a miss registers
the event), then hand over to `acceptOrReject`. -/
def step (cid cname : String) (st : ChanState) (e : programme) : Except RunError ChanState :=
  match parseGoTime e.Start with
  | none => .error (.parseFail e.Start)
  | some startT =>
    match parseGoTime e.Stop with
    | none => .error (.parseFail e.Stop)
    | some endT =>
      let idc := keyS startT e.ChannelName
      match st.ids.lookup idc with
      | some v =>
        if v.ChannelName == e.ChannelName then .ok st
        else acceptOrReject cid cname e startT endT st
      | none => acceptOrReject cid cname e startT endT { st with ids := (idc, e) :: st.ids }

/-- The per-event loop over a channel's raw event list, in source order. -/
def processEvents (cid cname : String) : ChanState → List programme → Except RunError ChanState
  | st, [] => .ok st
  | st, e :: es =>
    match step cid cname st e with
    | .error er => .error er
    | .ok st' => processEvents cid cname st' es

/-- Fresh per-channel structures at the top of the channel loop
(src/main.go lines 179-183); the identity registry `ids` survives. -/
def resetChan (st : ChanState) : ChanState :=
  { st with spans := [], eventByStartTime := [], output := [] }

/-- Processing of one requested channel's raw event list. -/
def processChannel (st : ChanState) (cid cname : String) (evs : List programme) :
    Except RunError ChanState :=
  processEvents cid cname (resetChan st) evs

/-- The raw events of channel `name`: the `channelEvents` map of
src/main.go lines 158-168 holds, under key `name`, exactly the
programmes with that `channel` attribute, in source order. -/
def eventsFor (progs : List programme) (name : String) : List programme :=
  progs.filter (fun e => e.ChannelName == name)

/-- The Go-string-`<` comparison on `ID` used by `sort.Sort(byStartTime(...))`
(src/main.go lines 257, 276-280), as a non-strict relation. -/
def outLe (a b : outputEvent) : Prop := goStrLt b.ID a.ID = false

instance : DecidableRel outLe := fun a b => by
  unfold outLe; infer_instance

instance : IsTotal outputEvent outLe where
  total a b := by
    unfold outLe
    rcases h : goStrLt b.ID a.ID with _ | _
    · exact Or.inl rfl
    · exact Or.inr (goStrLtL_asymm h)

instance : IsTrans outputEvent outLe where
  trans a b c hab hbc := goStrLtL_nlt_trans hab hbc

/-- The per-channel output sort of src/main.go line 257.  Within one
channel all `ID`s are distinct (duplicate identities are dropped), so
any comparison sort agrees with Go's unstable `sort.Sort`; the sort is
embedded as an insertion sort over the same comparison. -/
def sortOutput (l : List outputEvent) : List outputEvent :=
  l.insertionSort outLe

/-- The channel loop of `main` (src/main.go lines 174-270): channels with
no raw events are skipped, every other channel produces one output
document `(channel, sorted events)`. -/
def processChannels (progs : List programme) :
    ChanState → List requestedChannel →
      Except RunError (ChanState × List (requestedChannel × List outputEvent))
  | st, [] => .ok (st, [])
  | st, c :: cs =>
    if (eventsFor progs c.Name).isEmpty then processChannels progs st cs
    else
      match processChannel st c.ID c.Name (eventsFor progs c.Name) with
      | .error er => .error er
      | .ok st' =>
        match processChannels progs st' cs with
        | .error er => .error er
        | .ok (st'', rest) => .ok (st'', (c, sortOutput st'.output) :: rest)

/-- Initial run state: empty registry, nothing accepted. -/
def initState : ChanState := ⟨[], [], [], [], []⟩

/-- The whole reconciliation run: requested channels against the merged
raw event list, producing the per-channel output documents in order. -/
def runEngine (channels : List requestedChannel) (progs : List programme) :
    Except RunError (List (requestedChannel × List outputEvent)) :=
  (processChannels progs initState channels).map (fun p => p.2)

/-! ### Invariants and step-level lemmas -/

/-- Registry shape invariant: every registry entry was stored under the
key built from its own parsed start instant and its own channel name. -/
def RegInv (ids : List (String × programme)) : Prop :=
  ∀ k p, (k, p) ∈ ids → ∃ n, parseGoTime p.Start = some n ∧ k = keyS n p.ChannelName

/-- The accepted intervals are pairwise non-overlapping under the
half-open test. -/
def SpansOk (spans : List (Int × Int)) : Prop :=
  spans.Pairwise (fun a b => overlapsB a b = false)

theorem lookup_mem {l : List (String × programme)} {k : String} {v : programme}
    (h : l.lookup k = some v) : (k, v) ∈ l := by
  obtain ⟨l1, l2, rfl, -⟩ := List.lookup_eq_some_iff.mp h
  simp

theorem regInv_nil : RegInv [] := by
  intro k p hmem
  simp at hmem

theorem spansOk_nil : SpansOk [] := List.Pairwise.nil

theorem aor_emptyTitle {cid cname : String} {e : programme} {startT endT : Int}
    {st1 : ChanState} (ht : e.Title = []) :
    acceptOrReject cid cname e startT endT st1 = .error .emptyTitleList := by
  simp [acceptOrReject, ht]

theorem aor_ok_ids {cid cname : String} {e : programme} {startT endT : Int}
    {st1 st2 : ChanState} (h : acceptOrReject cid cname e startT endT st1 = .ok st2) :
    st2.ids = st1.ids := by
  rcases ht : e.Title with _ | ⟨t0, ts⟩ <;> simp only [acceptOrReject, ht] at h
  · exact absurd h (by simp)
  · split at h <;> rw [← Except.ok.inj h]

theorem aor_ok_spansOk {cid cname : String} {e : programme} {startT endT : Int}
    {st1 st2 : ChanState} (hok : SpansOk st1.spans)
    (h : acceptOrReject cid cname e startT endT st1 = .ok st2) :
    SpansOk st2.spans := by
  rcases ht : e.Title with _ | ⟨t0, ts⟩ <;> simp only [acceptOrReject, ht] at h
  · exact absurd h (by simp)
  · split at h
    next hany =>
      rw [← Except.ok.inj h]
      exact hok
    next hany =>
      rw [← Except.ok.inj h]
      simp only [SpansOk, List.pairwise_append]
      refine ⟨hok, by simp, ?_⟩
      intro a ha b hb
      simp only [List.mem_singleton] at hb
      subst hb
      have hany' : (st1.spans.any fun sp => overlapsB sp (startT, endT)) = false := by
        simpa using hany
      have := List.any_eq_false.mp hany' a ha
      simpa using this

theorem aor_accept {cid cname : String} {e : programme} {startT endT : Int}
    {st1 : ChanState} {t0 : title} {ts : List title} (ht : e.Title = t0 :: ts)
    (hany : st1.spans.any (fun sp => overlapsB sp (startT, endT)) = false) :
    acceptOrReject cid cname e startT endT st1 = .ok { st1 with
      spans := st1.spans ++ [(startT, endT)]
      eventByStartTime :=
        (formatOut endT, builtEvent e e.Title t0 startT endT) :: st1.eventByStartTime
      output := st1.output ++ [builtEvent e e.Title t0 startT endT] } := by
  simp only [acceptOrReject, ht, hany]
  rw [if_neg (by decide : ¬ false = true)]

theorem step_start_none {cid cname : String} {st : ChanState} {e : programme}
    (h : parseGoTime e.Start = none) :
    step cid cname st e = .error (.parseFail e.Start) := by
  simp [step, h]

theorem step_stop_none {cid cname : String} {st : ChanState} {e : programme} {n : Int}
    (hs : parseGoTime e.Start = some n) (h : parseGoTime e.Stop = none) :
    step cid cname st e = .error (.parseFail e.Stop) := by
  simp [step, hs, h]

theorem step_ok_parses {cid cname : String} {st st' : ChanState} {e : programme}
    (h : step cid cname st e = .ok st') :
    ∃ n m, parseGoTime e.Start = some n ∧ parseGoTime e.Stop = some m := by
  rcases hs : parseGoTime e.Start with _ | n
  · rw [step_start_none hs] at h
    exact absurd h (by simp)
  · rcases he : parseGoTime e.Stop with _ | m
    · rw [step_stop_none hs he] at h
      exact absurd h (by simp)
    · exact ⟨n, m, rfl, rfl⟩

theorem hit_same_channel {st : ChanState} {e : programme} {n : Int} {v : programme}
    (hinv : RegInv st.ids) (hs : parseGoTime e.Start = some n)
    (hl : st.ids.lookup (keyS n e.ChannelName) = some v) :
    v.ChannelName = e.ChannelName := by
  obtain ⟨n', hp', hk'⟩ := hinv _ _ (lookup_mem hl)
  exact (keyS_inj hk').2.symm

theorem step_dup {cid cname : String} {st : ChanState} {e : programme} {n m : Int}
    {v : programme} (hinv : RegInv st.ids) (hs : parseGoTime e.Start = some n)
    (he : parseGoTime e.Stop = some m)
    (hl : st.ids.lookup (keyS n e.ChannelName) = some v) :
    step cid cname st e = .ok st := by
  have hch : (v.ChannelName == e.ChannelName) = true :=
    beq_iff_eq.mpr (hit_same_channel hinv hs hl)
  simp [step, hs, he, hl, hch]

theorem step_registers {cid cname : String} {st st' : ChanState} {e : programme} {n : Int}
    (h : step cid cname st e = .ok st') (hs : parseGoTime e.Start = some n) :
    ∃ w, st'.ids.lookup (keyS n e.ChannelName) = some w := by
  obtain ⟨n', m, hs', he⟩ := step_ok_parses h
  rw [hs] at hs'
  obtain rfl : n = n' := Option.some.inj hs'
  simp only [step, hs, he] at h
  split at h
  next v hl =>
    split at h
    next => rw [← Except.ok.inj h]; exact ⟨v, hl⟩
    next => rw [aor_ok_ids h]; exact ⟨v, hl⟩
  next hl =>
    rw [aor_ok_ids h]
    exact ⟨e, by simp [List.lookup]⟩

theorem step_ids_mono {cid cname : String} {st st' : ChanState} {e : programme}
    {k : String} {v : programme} (h : step cid cname st e = .ok st')
    (hl : st.ids.lookup k = some v) : st'.ids.lookup k = some v := by
  obtain ⟨n, m, hs, he⟩ := step_ok_parses h
  simp only [step, hs, he] at h
  split at h
  next w hidc =>
    split at h
    next => rw [← Except.ok.inj h]; exact hl
    next => rw [aor_ok_ids h]; exact hl
  next hidc =>
    rw [aor_ok_ids h]
    have hk : k ≠ keyS n e.ChannelName := by
      intro hkk
      rw [hkk, hidc] at hl
      exact absurd hl (by simp)
    simp [List.lookup, beq_eq_false_iff_ne.mpr hk, hl]

theorem step_regInv {cid cname : String} {st st' : ChanState} {e : programme}
    (hinv : RegInv st.ids) (h : step cid cname st e = .ok st') : RegInv st'.ids := by
  obtain ⟨n, m, hs, he⟩ := step_ok_parses h
  simp only [step, hs, he] at h
  split at h
  next w hidc =>
    split at h
    next => rw [← Except.ok.inj h]; exact hinv
    next => rw [aor_ok_ids h]; exact hinv
  next hidc =>
    rw [aor_ok_ids h]
    intro k p hmem
    rcases List.mem_cons.mp hmem with h1 | h2
    · obtain ⟨hk, hp⟩ := Prod.mk.injEq .. ▸ h1
      subst hp
      exact ⟨n, hs, hk⟩
    · exact hinv k p h2

/-- The accepted output sequence carries exactly the accepted intervals:
the i-th output event's formatted times are the i-th span's endpoints. -/
def OutSpansAligned (st : ChanState) : Prop :=
  st.output.map (fun o => (o.StartTime, o.EndTime)) =
    st.spans.map (fun sp => (formatOut sp.1, formatOut sp.2))

theorem aor_ok_aligned {cid cname : String} {e : programme} {startT endT : Int}
    {st1 st2 : ChanState} (hal : OutSpansAligned st1)
    (h : acceptOrReject cid cname e startT endT st1 = .ok st2) :
    OutSpansAligned st2 := by
  rcases ht : e.Title with _ | ⟨t0, ts⟩ <;> simp only [acceptOrReject, ht] at h
  · exact absurd h (by simp)
  · split at h
    next =>
      rw [← Except.ok.inj h]
      exact hal
    next =>
      rw [← Except.ok.inj h]
      simp only [OutSpansAligned, List.map_append] at hal ⊢
      rw [hal]
      rfl

theorem step_aligned {cid cname : String} {st st' : ChanState} {e : programme}
    (hal : OutSpansAligned st) (h : step cid cname st e = .ok st') :
    OutSpansAligned st' := by
  obtain ⟨n, m, hs, he⟩ := step_ok_parses h
  simp only [step, hs, he] at h
  split at h
  next w hidc =>
    split at h
    next => rw [← Except.ok.inj h]; exact hal
    next => exact aor_ok_aligned hal h
  next hidc =>
    have hal' : OutSpansAligned ({ st with
        ids := (keyS n e.ChannelName, e) :: st.ids } : ChanState) := hal
    exact aor_ok_aligned hal' h

theorem pe_aligned {cid cname : String} {st st' : ChanState} {evs : List programme}
    (hal : OutSpansAligned st) (h : processEvents cid cname st evs = .ok st') :
    OutSpansAligned st' := by
  induction evs generalizing st with
  | nil =>
    simp only [processEvents] at h
    rw [← Except.ok.inj h]
    exact hal
  | cons e es ih =>
    simp only [processEvents] at h
    rcases hstep : step cid cname st e with er | st1
    · rw [hstep] at h
      exact absurd h (by simp)
    · rw [hstep] at h
      exact ih (step_aligned hal hstep) h

theorem step_spansOk {cid cname : String} {st st' : ChanState} {e : programme}
    (hok : SpansOk st.spans) (h : step cid cname st e = .ok st') : SpansOk st'.spans := by
  obtain ⟨n, m, hs, he⟩ := step_ok_parses h
  simp only [step, hs, he] at h
  split at h
  next w hidc =>
    split at h
    next => rw [← Except.ok.inj h]; exact hok
    next => exact aor_ok_spansOk hok h
  next hidc =>
    have hok' : SpansOk ({ st with
        ids := (keyS n e.ChannelName, e) :: st.ids } : ChanState).spans := hok
    exact aor_ok_spansOk hok' h

/-! ### Lemmas about the per-channel event loop -/

theorem processEvents_append (cid cname : String) (st : ChanState) (xs ys : List programme) :
    processEvents cid cname st (xs ++ ys) =
      match processEvents cid cname st xs with
      | .error er => .error er
      | .ok st1 => processEvents cid cname st1 ys := by
  induction xs generalizing st with
  | nil => simp [processEvents]
  | cons e es ih =>
    simp only [List.cons_append, processEvents]
    cases step cid cname st e with
    | error er => rfl
    | ok st1 => exact ih st1

theorem pe_ids_mono {cid cname : String} {st st' : ChanState} {evs : List programme}
    {k : String} {v : programme} (h : processEvents cid cname st evs = .ok st')
    (hl : st.ids.lookup k = some v) : st'.ids.lookup k = some v := by
  induction evs generalizing st with
  | nil =>
    simp only [processEvents] at h
    rw [← Except.ok.inj h]
    exact hl
  | cons e es ih =>
    simp only [processEvents] at h
    rcases hstep : step cid cname st e with er | st1
    · rw [hstep] at h
      exact absurd h (by simp)
    · rw [hstep] at h
      exact ih h (step_ids_mono hstep hl)

theorem pe_regInv {cid cname : String} {st st' : ChanState} {evs : List programme}
    (hinv : RegInv st.ids) (h : processEvents cid cname st evs = .ok st') :
    RegInv st'.ids := by
  induction evs generalizing st with
  | nil =>
    simp only [processEvents] at h
    rw [← Except.ok.inj h]
    exact hinv
  | cons e es ih =>
    simp only [processEvents] at h
    rcases hstep : step cid cname st e with er | st1
    · rw [hstep] at h
      exact absurd h (by simp)
    · rw [hstep] at h
      exact ih (step_regInv hinv hstep) h

theorem pe_spansOk {cid cname : String} {st st' : ChanState} {evs : List programme}
    (hok : SpansOk st.spans) (h : processEvents cid cname st evs = .ok st') :
    SpansOk st'.spans := by
  induction evs generalizing st with
  | nil =>
    simp only [processEvents] at h
    rw [← Except.ok.inj h]
    exact hok
  | cons e es ih =>
    simp only [processEvents] at h
    rcases hstep : step cid cname st e with er | st1
    · rw [hstep] at h
      exact absurd h (by simp)
    · rw [hstep] at h
      exact ih (step_spansOk hok hstep) h

theorem pe_registers_all {cid cname : String} {st st' : ChanState} {evs : List programme}
    (h : processEvents cid cname st evs = .ok st') :
    ∀ e ∈ evs, ∃ n m w, parseGoTime e.Start = some n ∧ parseGoTime e.Stop = some m ∧
      st'.ids.lookup (keyS n e.ChannelName) = some w := by
  induction evs generalizing st with
  | nil => intro e he; simp at he
  | cons e0 es ih =>
    intro e he
    simp only [processEvents] at h
    rcases hstep : step cid cname st e0 with er | st1
    · rw [hstep] at h
      exact absurd h (by simp)
    · rw [hstep] at h
      rcases List.mem_cons.mp he with rfl | hes
      · obtain ⟨n, m, hs, hm⟩ := step_ok_parses hstep
        obtain ⟨w, hw⟩ := step_registers hstep hs
        exact ⟨n, m, w, hs, hm, pe_ids_mono h hw⟩
      · exact ih h e hes

theorem pe_all_skipped {cid cname : String} {st : ChanState} {evs : List programme}
    (hinv : RegInv st.ids)
    (hall : ∀ e ∈ evs, ∃ n m w, parseGoTime e.Start = some n ∧
      parseGoTime e.Stop = some m ∧ st.ids.lookup (keyS n e.ChannelName) = some w) :
    processEvents cid cname st evs = .ok st := by
  induction evs with
  | nil => rfl
  | cons e es ih =>
    obtain ⟨n, m, w, hs, hm, hw⟩ := hall e (List.mem_cons_self e es)
    simp only [processEvents, step_dup hinv hs hm hw]
    exact ih (fun e' he' => hall e' (List.mem_cons_of_mem e he'))

/-! ### Lemmas about the channel loop -/

/-- Number of channels for which an output document is written: those
with at least one raw event. -/
def countWritten (progs : List programme) (cs : List requestedChannel) : Nat :=
  (cs.filter (fun c => !(eventsFor progs c.Name).isEmpty)).length

theorem processChannels_append (progs : List programme) (st : ChanState)
    (xs ys : List requestedChannel) :
    processChannels progs st (xs ++ ys) =
      match processChannels progs st xs with
      | .error er => .error er
      | .ok (st1, out1) =>
        match processChannels progs st1 ys with
        | .error er => .error er
        | .ok (st2, out2) => .ok (st2, out1 ++ out2) := by
  induction xs generalizing st with
  | nil =>
    simp only [List.nil_append, processChannels]
    rcases processChannels progs st ys with er | ⟨st2, out2⟩ <;> simp
  | cons c cs ih =>
    simp only [List.cons_append, processChannels]
    split
    · exact ih st
    · rcases hch : processChannel st c.ID c.Name (eventsFor progs c.Name) with er | st1
      · simp
      · simp only [List.append_eq, ih st1]
        rcases hcs : processChannels progs st1 cs with er | ⟨stA, outA⟩
        · simp
        · rcases hys : processChannels progs stA ys with er | ⟨stB, outB⟩ <;> simp [hys]

theorem pchan_ids_mono {st st1 : ChanState} {cid cname : String} {evs : List programme}
    {k : String} {v : programme} (h : processChannel st cid cname evs = .ok st1)
    (hl : st.ids.lookup k = some v) : st1.ids.lookup k = some v := by
  have h' : processEvents cid cname (resetChan st) evs = .ok st1 := h
  have hl' : (resetChan st).ids.lookup k = some v := hl
  exact pe_ids_mono h' hl'

theorem pchan_regInv {st st1 : ChanState} {cid cname : String} {evs : List programme}
    (hinv : RegInv st.ids) (h : processChannel st cid cname evs = .ok st1) :
    RegInv st1.ids := by
  have h' : processEvents cid cname (resetChan st) evs = .ok st1 := h
  have hinv' : RegInv (resetChan st).ids := hinv
  exact pe_regInv hinv' h'

theorem pc_ids_mono {progs : List programme} {st st' : ChanState}
    {cs : List requestedChannel} {out : List (requestedChannel × List outputEvent)}
    {k : String} {v : programme} (h : processChannels progs st cs = .ok (st', out))
    (hl : st.ids.lookup k = some v) : st'.ids.lookup k = some v := by
  induction cs generalizing st out with
  | nil =>
    simp only [processChannels, Except.ok.injEq, Prod.mk.injEq] at h
    rw [← h.1]
    exact hl
  | cons c cs ih =>
    simp only [processChannels] at h
    split at h
    · exact ih h hl
    · rcases hch : processChannel st c.ID c.Name (eventsFor progs c.Name) with er | st1
      · simp only [hch] at h
        exact absurd h (by simp)
      · simp only [hch] at h
        rcases hcs : processChannels progs st1 cs with er | ⟨st2, rest⟩
        · simp only [hcs] at h
          exact absurd h (by simp)
        · simp only [hcs, Except.ok.injEq, Prod.mk.injEq] at h
          obtain ⟨h1, h2⟩ := h
          subst h1
          exact ih hcs (pchan_ids_mono hch hl)

theorem pc_regInv {progs : List programme} {st st' : ChanState}
    {cs : List requestedChannel} {out : List (requestedChannel × List outputEvent)}
    (hinv : RegInv st.ids) (h : processChannels progs st cs = .ok (st', out)) :
    RegInv st'.ids := by
  induction cs generalizing st out with
  | nil =>
    simp only [processChannels, Except.ok.injEq, Prod.mk.injEq] at h
    rw [← h.1]
    exact hinv
  | cons c cs ih =>
    simp only [processChannels] at h
    split at h
    · exact ih hinv h
    · rcases hch : processChannel st c.ID c.Name (eventsFor progs c.Name) with er | st1
      · simp only [hch] at h
        exact absurd h (by simp)
      · simp only [hch] at h
        rcases hcs : processChannels progs st1 cs with er | ⟨st2, rest⟩
        · simp only [hcs] at h
          exact absurd h (by simp)
        · simp only [hcs, Except.ok.injEq, Prod.mk.injEq] at h
          obtain ⟨h1, h2⟩ := h
          subst h1
          exact ih (pchan_regInv hinv hch) hcs

theorem pc_out_length {progs : List programme} {st st' : ChanState}
    {cs : List requestedChannel} {out : List (requestedChannel × List outputEvent)}
    (h : processChannels progs st cs = .ok (st', out)) :
    out.length = countWritten progs cs := by
  induction cs generalizing st out with
  | nil =>
    simp only [processChannels, Except.ok.injEq, Prod.mk.injEq] at h
    rw [← h.2]
    rfl
  | cons c cs ih =>
    simp only [processChannels] at h
    split at h
    next hemp =>
      rw [ih h]
      simp [countWritten, List.filter, hemp]
    next hemp =>
      rcases hch : processChannel st c.ID c.Name (eventsFor progs c.Name) with er | st1
      · simp only [hch] at h
        exact absurd h (by simp)
      · simp only [hch] at h
        rcases hcs : processChannels progs st1 cs with er | ⟨st2, rest⟩
        · simp only [hcs] at h
          exact absurd h (by simp)
        · simp only [hcs, Except.ok.injEq, Prod.mk.injEq] at h
          obtain ⟨h1, h2⟩ := h
          subst h1
          rw [← h2]
          have hemp' : (!(eventsFor progs c.Name).isEmpty) = true := by
            simpa using hemp
          simp only [countWritten, List.filter, hemp', List.length_cons]
          simpa [countWritten] using ih hcs

/-! ### Concrete fixture data for witnesses and counterexamples -/

/-- A raw event in the shape the feed parser produces. -/
def mkProg (start stop ch nm : String) : programme :=
  { Start := start, Stop := stop, ChannelName := ch,
    Description := ⟨"bg", "desc " ++ nm⟩,
    Title := [⟨"bg", nm⟩],
    Credits := ⟨["prod1"], ["actor1"]⟩,
    Date := "2017",
    Category := ⟨"bg", "cat"⟩,
    Country := ["BG"],
    EpisodeNumber := "" }

def evMorning : programme := mkProg "20170701080000 +0300" "20170701100000 +0300" "Alfa" "utro"
def evMorningDup : programme :=
  mkProg "20170701080000 +0300" "20170701100000 +0300" "Alfa" "utro kopie"
def evOverlap : programme := mkProg "20170701093000 +0300" "20170701110000 +0300" "Alfa" "obed"
def evTouch1 : programme := mkProg "20170701080000 +0300" "20170701090000 +0300" "Alfa" "chas1"
def evTouch2 : programme := mkProg "20170701090000 +0300" "20170701100000 +0300" "Alfa" "chas2"
def evLater : programme := mkProg "20010909014640 +0000" "20010909024640 +0000" "Alfa" "kasen"
def evEarlier : programme := mkProg "20010908214000 +0000" "20010908224000 +0000" "Alfa" "ranen"
def evInverted : programme := mkProg "20170701100000 +0300" "20170701080000 +0300" "Alfa" "obraten"
def evNoTitle : programme :=
  { mkProg "20170701080000 +0300" "20170701100000 +0300" "Alfa" "x" with
    Title := ([] : List title) }
def chAlfa : requestedChannel := ⟨"1", "Alfa"⟩
def chAlfaDup : requestedChannel := ⟨"2", "Alfa"⟩

/-- The state after processing Scenario B (`evMorning` accepted,
`evOverlap` rejected for temporal overlap but still registered). -/
def w6State : ChanState :=
  match processEvents "1" "Alfa" initState [evMorning, evOverlap] with
  | .ok s => s
  | .error _ => initState

/-! ### Claim theorems -/

/-- C1: for every channel run, after any prefix of the per-event loop the
accepted intervals are pairwise non-intersecting under the half-open test
`a.start < b.end && b.start < a.end` — a candidate is appended only when
`IntersectionBetween` finds no intersection with the previously accepted
intervals — and the events accepted into the output sequence carry
exactly those intervals, in order. -/
theorem no_overlap_invariant (cid cname : String) (st st' : ChanState)
    (evs : List programme) (k : Nat) (h0 : SpansOk st.spans)
    (h0a : OutSpansAligned st)
    (h : processEvents cid cname st (evs.take k) = .ok st') :
    SpansOk st'.spans ∧ OutSpansAligned st' :=
  ⟨pe_spansOk h0 h, pe_aligned h0a h⟩

/-- Witness for C1: the Scenario-B run (`[08:00,10:00)` then the
overlapping `[09:30,11:00)`) leaves pairwise non-overlapping spans that
line up with the accepted output events. -/
theorem no_overlap_invariant_witness :
    SpansOk initState.spans ∧ OutSpansAligned initState ∧
    processEvents "1" "Alfa" initState ([evMorning, evOverlap].take 2) = .ok w6State ∧
    (SpansOk w6State.spans ∧ OutSpansAligned w6State) :=
  ⟨List.Pairwise.nil, rfl, by rfl,
   no_overlap_invariant "1" "Alfa" initState w6State [evMorning, evOverlap] 2
     List.Pairwise.nil rfl (by rfl)⟩

/-- C6: a registry hit with matching channel name is dropped silently —
the resulting state is exactly the incoming state (no error, nothing
appended to the collision log, the interval index untouched) — and every
event that completes a loop iteration without a fatal error, whether it
was accepted or rejected for temporal overlap, has its identity in the
registry afterwards, so a later exact duplicate is dropped as a
duplicate rather than re-tested against the interval index. -/
theorem duplicate_drop_and_registration :
    (∀ (cid cname : String) (st : ChanState) (e : programme) (n m : Int) (v : programme),
      RegInv st.ids → parseGoTime e.Start = some n → parseGoTime e.Stop = some m →
      st.ids.lookup (keyS n e.ChannelName) = some v →
      step cid cname st e = .ok st) ∧
    (∀ (cid cname : String) (st st' : ChanState) (e : programme) (n : Int),
      step cid cname st e = .ok st' → parseGoTime e.Start = some n →
      ∃ w, st'.ids.lookup (keyS n e.ChannelName) = some w) :=
  ⟨fun _ _ _ _ _ _ _ hinv hs he hl => step_dup hinv hs he hl,
   fun _ _ _ _ _ _ h hs => step_registers h hs⟩

/-- Witness for C6: after Scenario B, the exact duplicate `evMorningDup`
of the accepted `evMorning` is dropped with the state unchanged, and the
overlap-rejected `evOverlap` is nevertheless present in the registry. -/
theorem duplicate_drop_and_registration_witness :
    RegInv w6State.ids ∧
    parseGoTime evMorningDup.Start = some 1498885200 ∧
    parseGoTime evMorningDup.Stop = some 1498892400 ∧
    w6State.ids.lookup (keyS 1498885200 evMorningDup.ChannelName) = some evMorning ∧
    step "1" "Alfa" w6State evMorningDup = .ok w6State ∧
    (∃ w, w6State.ids.lookup (keyS 1498890600 evOverlap.ChannelName) = some w) := by
  have hinv : RegInv w6State.ids :=
    pe_regInv regInv_nil
      (by rfl : processEvents "1" "Alfa" initState [evMorning, evOverlap] = .ok w6State)
  refine ⟨hinv, rfl, rfl, by rfl, ?_, ?_⟩
  · exact duplicate_drop_and_registration.1 "1" "Alfa" w6State evMorningDup
      1498885200 1498892400 evMorning hinv rfl rfl (by rfl)
  · exact ⟨evOverlap, by rfl⟩

/-- C10: the registry key embeds the channel name, so the registry is
channel-faithful: it holds for the empty initial registry, is preserved
by every loop iteration, and at every registry hit the stored record's
channel name equals the probing event's channel name — hence the
fall-through branch for a differing channel name is unreachable and
every registry hit drops the event. -/
theorem registry_hit_channel_agreement :
    RegInv initState.ids ∧
    (∀ (cid cname : String) (st st' : ChanState) (e : programme),
      RegInv st.ids → step cid cname st e = .ok st' → RegInv st'.ids) ∧
    (∀ (st : ChanState) (e : programme) (n : Int) (v : programme),
      RegInv st.ids → parseGoTime e.Start = some n →
      st.ids.lookup (keyS n e.ChannelName) = some v →
      v.ChannelName = e.ChannelName) :=
  ⟨regInv_nil,
   fun _ _ _ _ _ hinv h => step_regInv hinv h,
   fun _ _ _ _ hinv hs hl => hit_same_channel hinv hs hl⟩

/-- Characterization of the title-selection loop: the last variant whose
language tag is `bg` wins; with no `bg` variant the accumulator start
value (the first variant, at the call site) is kept. -/
theorem chooseTitle_eq (t0 : title) (l : List title) :
    chooseTitle t0 l = ((l.reverse.find? (fun x => x.Lang == "bg")).getD t0) := by
  induction l generalizing t0 with
  | nil => rfl
  | cons x xs ih =>
    simp only [chooseTitle, List.foldl_cons]
    have hstep : List.foldl (fun acc y => if y.Lang == "bg" then y else acc)
        (if x.Lang == "bg" then x else t0) xs
        = chooseTitle (if x.Lang == "bg" then x else t0) xs := rfl
    rw [hstep, ih]
    simp only [List.reverse_cons, List.find?_append]
    rcases hf : xs.reverse.find? (fun t => t.Lang == "bg") with _ | y
    · rcases hx : x.Lang == "bg" with _ | _ <;> simp [Option.or, List.find?, hx, hf]
    · simp [Option.or, hf]

/-- C5 (amended): the title selection is total and deterministic only for
events with at least one variant: the last variant whose language tag is
`bg` is chosen, else the first variant.  An event with zero variants does
not yield an empty string — the `event.Title[0]` access panics and aborts
the run. -/
theorem title_selection :
    (∀ (t0 : title) (l : List title),
      chooseTitle t0 l = ((l.reverse.find? (fun x => x.Lang == "bg")).getD t0)) ∧
    (∀ (cid cname : String) (st : ChanState) (e : programme) (startT endT : Int),
      e.Title = [] → acceptOrReject cid cname e startT endT st = .error .emptyTitleList) :=
  ⟨chooseTitle_eq, fun _ _ _ _ _ _ ht => aor_emptyTitle ht⟩

/-- Witness for C5 (amended): the selection on three variants picks the
last `bg` one, and the zero-variant event makes the loop body fail. -/
theorem title_selection_witness :
    evNoTitle.Title = [] ∧
    acceptOrReject "1" "Alfa" evNoTitle 0 3600 initState = .error .emptyTitleList ∧
    chooseTitle ⟨"en", "E"⟩ [⟨"en", "E"⟩, ⟨"bg", "B1"⟩, ⟨"bg", "B2"⟩] =
      (([⟨"en", "E"⟩, ⟨"bg", "B1"⟩, ⟨"bg", "B2"⟩].reverse.find?
        (fun x => x.Lang == "bg")).getD ⟨"en", "E"⟩) :=
  ⟨rfl, title_selection.2 "1" "Alfa" initState evNoTitle 0 3600 rfl,
   title_selection.1 ⟨"en", "E"⟩ [⟨"en", "E"⟩, ⟨"bg", "B1"⟩, ⟨"bg", "B2"⟩]⟩

/-- Counterexample for C5: on an event whose title-variant list is empty
the engine does not produce an empty-string title — the whole run aborts
with the `Title[0]` panic, refuting the claim that the selection never
fails. -/
theorem title_zero_variants_cex :
    runEngine [chAlfa] [evNoTitle] = .error .emptyTitleList := by rfl

/-- An event whose start timestamp does not lex against the fixed layout. -/
def evBadStamp : programme := mkProg "garbage" "20170701100000 +0300" "Alfa" "zle"

/-- C4 (amended): the loop aborts the run exactly when a timestamp fails
to parse; there is no `start < end` validation — an event whose parsed
start is at or after its parsed end proceeds through the registry and
interval tests like any other and, absent conflicts, is accepted into the
output. -/
theorem fatal_only_on_parse_failure :
    (∀ (cid cname : String) (st : ChanState) (e : programme),
      parseGoTime e.Start = none → step cid cname st e = .error (.parseFail e.Start)) ∧
    (∀ (cid cname : String) (st : ChanState) (e : programme) (n : Int),
      parseGoTime e.Start = some n → parseGoTime e.Stop = none →
      step cid cname st e = .error (.parseFail e.Stop)) ∧
    (∀ (cid cname : String) (st : ChanState) (e : programme) (n m : Int) (t0 : title)
        (ts : List title),
      parseGoTime e.Start = some n → parseGoTime e.Stop = some m →
      st.ids.lookup (keyS n e.ChannelName) = none → e.Title = t0 :: ts →
      st.spans.any (fun sp => overlapsB sp (n, m)) = false →
      ∃ st', step cid cname st e = .ok st' ∧
        st'.output = st.output ++ [builtEvent e e.Title t0 n m]) := by
  refine ⟨fun _ _ _ _ h => step_start_none h,
    fun _ _ _ _ _ hs h => step_stop_none hs h, ?_⟩
  intro cid cname st e n m t0 ts hs he hl ht hany
  have hstep : step cid cname st e =
      acceptOrReject cid cname e n m
        { st with ids := (keyS n e.ChannelName, e) :: st.ids } := by
    simp [step, hs, he, hl]
  have hany' : ({ st with ids := (keyS n e.ChannelName, e) :: st.ids } :
      ChanState).spans.any (fun sp => overlapsB sp (n, m)) = false := hany
  have hacc := @aor_accept cid cname e n m
    { st with ids := (keyS n e.ChannelName, e) :: st.ids } t0 ts ht hany'
  exact ⟨_, hstep.trans hacc, rfl⟩

/-- Witness for C4 (amended): an unparseable start timestamp is fatal,
while the inverted Scenario-D event (start 10:00, end 08:00) is accepted. -/
theorem fatal_only_on_parse_failure_witness :
    parseGoTime evBadStamp.Start = none ∧
    step "1" "Alfa" initState evBadStamp = .error (.parseFail evBadStamp.Start) ∧
    parseGoTime evInverted.Start = some 1498892400 ∧
    parseGoTime evInverted.Stop = some 1498885200 ∧
    (∃ st', step "1" "Alfa" initState evInverted = .ok st' ∧
      st'.output = initState.output ++
        [builtEvent evInverted evInverted.Title ⟨"bg", "obraten"⟩ 1498892400 1498885200]) :=
  ⟨rfl, fatal_only_on_parse_failure.1 "1" "Alfa" initState evBadStamp rfl, rfl, rfl,
   fatal_only_on_parse_failure.2.2 "1" "Alfa" initState evInverted 1498892400 1498885200
     ⟨"bg", "obraten"⟩ [] rfl rfl rfl rfl rfl⟩

/-- Counterexample for C4: Scenario D — `start="20170701100000 +0300"`,
`end="20170701080000 +0300"` (end before start) — does not raise a
malformed-input error: the run completes and the event is accepted. -/
theorem inverted_interval_cex :
    parseGoTime evInverted.Start = some 1498892400 ∧
    parseGoTime evInverted.Stop = some 1498885200 ∧
    (1498885200 : Int) < 1498892400 ∧
    (runEngine [chAlfa] [evInverted]).map (fun out => out.map (fun p => (p.1, p.2.length))) =
      .ok [(chAlfa, 1)] :=
  ⟨rfl, rfl, by decide, by rfl⟩

/-- C8: the engine is a pure function of its inputs — equal channel lists
and equal merged event lists give equal results — and the identity is a
function of the parsed start instant (already second-granular) and the
channel key alone, independent of the event's other fields or position. -/
theorem determinism_and_identity :
    (∀ (chs₁ chs₂ : List requestedChannel) (progs₁ progs₂ : List programme),
      chs₁ = chs₂ → progs₁ = progs₂ → runEngine chs₁ progs₁ = runEngine chs₂ progs₂) ∧
    (∀ e₁ e₂ : programme, parseGoTime e₁.Start = parseGoTime e₂.Start →
      e₁.ChannelName = e₂.ChannelName → identityOf e₁ = identityOf e₂) := by
  constructor
  · intro _ _ _ _ h1 h2
    rw [h1, h2]
  · intro e1 e2 h1 h2
    simp [identityOf, h1, h2]

/-- Witness for C8: re-running on the same input is identical, and the
duplicate event with a different payload gets the same identity. -/
theorem determinism_and_identity_witness :
    runEngine [chAlfa] [evMorning] = runEngine [chAlfa] [evMorning] ∧
    parseGoTime evMorning.Start = parseGoTime evMorningDup.Start ∧
    evMorning.ChannelName = evMorningDup.ChannelName ∧
    identityOf evMorning = identityOf evMorningDup :=
  ⟨determinism_and_identity.1 [chAlfa] [chAlfa] [evMorning] [evMorning] rfl rfl, rfl, rfl,
   determinism_and_identity.2 evMorning evMorningDup rfl rfl⟩

/-- C3 (amended): every per-channel output sequence handed to the output
writer is sorted ascending by `identity` under Go's lexicographic string
comparison of the decimal `ID`s.  Because decimal strings of different
lengths do not compare numerically, this order is not monotone in the
start instant, so the emitted sequence is not chronological in general
(see the counterexample). -/
theorem output_sorted_by_identity (progs : List programme) (st st' : ChanState)
    (cs : List requestedChannel) (out : List (requestedChannel × List outputEvent))
    (h : processChannels progs st cs = .ok (st', out)) :
    ∀ c l, (c, l) ∈ out → l.Pairwise outLe := by
  induction cs generalizing st out with
  | nil =>
    simp only [processChannels, Except.ok.injEq, Prod.mk.injEq] at h
    rw [← h.2]
    intro c l hm
    simp at hm
  | cons c0 cs ih =>
    simp only [processChannels] at h
    split at h
    · exact ih st out h
    · rcases hch : processChannel st c0.ID c0.Name (eventsFor progs c0.Name) with er | st1
      · simp only [hch] at h
        exact absurd h (by simp)
      · simp only [hch] at h
        rcases hcs : processChannels progs st1 cs with er | ⟨st2, rest⟩
        · simp only [hcs] at h
          exact absurd h (by simp)
        · simp only [hcs, Except.ok.injEq, Prod.mk.injEq] at h
          obtain ⟨h1, h2⟩ := h
          subst h1
          rw [← h2]
          intro c l hm
          rcases List.mem_cons.mp hm with heq | hmem
          · have hl := congrArg Prod.snd heq
            simp only at hl
            rw [hl]
            exact List.sorted_insertionSort outLe st1.output
          · exact ih st1 rest hcs c l hmem

/-- The final run state of the two-event run whose identities have nine
and ten decimal digits. -/
def cexSortState : ChanState :=
  match processChannels [evLater, evEarlier] initState [chAlfa] with
  | .ok p => p.1
  | .error _ => initState

/-- The output documents of that run. -/
def cexSortOut : List (requestedChannel × List outputEvent) :=
  match processChannels [evLater, evEarlier] initState [chAlfa] with
  | .ok p => p.2
  | .error _ => []

/-- The emitted event sequence of that run's only channel. -/
def cexSortList : List outputEvent :=
  match cexSortOut with
  | (_, l) :: _ => l
  | [] => []

/-- Counterexample for C3: identities `"1000000000"` and `"999985200"`
sort as `"1000000000" < "999985200"` lexicographically, so the emitted
sequence starts with the chronologically later event — the output is not
non-decreasing in start. -/
theorem chronological_output_cex :
    (runEngine [chAlfa] [evLater, evEarlier]).map
      (fun out => out.map (fun p => p.2.map (fun o => (o.ID, o.StartTime)))) =
      .ok [[("1000000000", "2001-09-09T01:46:40Z"), ("999985200", "2001-09-08T21:40:00Z")]] ∧
    parseGoTime evLater.Start = some 1000000000 ∧
    parseGoTime evEarlier.Start = some 999985200 ∧
    (999985200 : Int) < 1000000000 :=
  ⟨by rfl, rfl, rfl, by decide⟩

/-- Witness for C3 (amended): that run's emitted sequence is sorted by
`ID` under the Go string comparison. -/
theorem output_sorted_by_identity_witness :
    processChannels [evLater, evEarlier] initState [chAlfa] = .ok (cexSortState, cexSortOut) ∧
    (chAlfa, cexSortList) ∈ cexSortOut ∧ cexSortList.Pairwise outLe :=
  ⟨by rfl, by exact List.mem_cons_self _ _,
   output_sorted_by_identity [evLater, evEarlier] initState cexSortState [chAlfa]
     cexSortOut (by rfl) chAlfa cexSortList (by exact List.mem_cons_self _ _)⟩

/-- C7: two touching events — the first ending exactly where the second
starts — are both accepted: the half-open intersection test does not
treat `a.end == b.start` as an overlap, and their identities differ, so
the second is neither dropped as a duplicate nor rejected as a temporal
collision. -/
theorem touching_both_accepted (cid cname : String) (e1 e2 : programme) (T : Int)
    (t1 : title) (ts1 : List title) (t2 : title) (ts2 : List title)
    (h1s : parseGoTime e1.Start = some T) (h1e : parseGoTime e1.Stop = some (T + 3600))
    (h2s : parseGoTime e2.Start = some (T + 3600))
    (h2e : parseGoTime e2.Stop = some (T + 7200))
    (hch : e1.ChannelName = e2.ChannelName)
    (hT1 : e1.Title = t1 :: ts1) (hT2 : e2.Title = t2 :: ts2) :
    ∃ st', processEvents cid cname initState [e1, e2] = .ok st' ∧
      st'.spans = [(T, T + 3600), (T + 3600, T + 7200)] ∧
      st'.output.length = 2 := by
  have hstep1 : step cid cname initState e1 = .ok
      { ids := [(keyS T e1.ChannelName, e1)],
        spans := [(T, T + 3600)],
        eventByStartTime := [(formatOut (T + 3600), builtEvent e1 e1.Title t1 T (T + 3600))],
        output := [builtEvent e1 e1.Title t1 T (T + 3600)],
        collisions := [] } := by
    have h0 : step cid cname initState e1 = acceptOrReject cid cname e1 T (T + 3600)
        { initState with ids := [(keyS T e1.ChannelName, e1)] } := by
      simp [step, h1s, h1e, initState, List.lookup]
    rw [h0, @aor_accept cid cname e1 T (T + 3600)
      { initState with ids := [(keyS T e1.ChannelName, e1)] } t1 ts1 hT1 rfl]
    rfl
  have hkne : (keyS (T + 3600) e2.ChannelName == keyS T e1.ChannelName) = false := by
    rw [← hch]
    refine beq_eq_false_iff_ne.mpr ?_
    intro hk
    have h1 := (keyS_inj hk).1
    omega
  have hst1ids : ([(keyS T e1.ChannelName, e1)] :
      List (String × programme)).lookup (keyS (T + 3600) e2.ChannelName) = none := by
    simp [List.lookup, hkne]
  have hany2 : ([(T, T + 3600)].any fun sp => overlapsB sp (T + 3600, T + 7200)) = false := by
    simp [overlapsB]
  have hstep2 : step cid cname
      { ids := [(keyS T e1.ChannelName, e1)],
        spans := [(T, T + 3600)],
        eventByStartTime := [(formatOut (T + 3600), builtEvent e1 e1.Title t1 T (T + 3600))],
        output := [builtEvent e1 e1.Title t1 T (T + 3600)],
        collisions := [] } e2 = .ok
      { ids := [(keyS (T + 3600) e2.ChannelName, e2), (keyS T e1.ChannelName, e1)],
        spans := [(T, T + 3600), (T + 3600, T + 7200)],
        eventByStartTime :=
          [(formatOut (T + 7200), builtEvent e2 e2.Title t2 (T + 3600) (T + 7200)),
           (formatOut (T + 3600), builtEvent e1 e1.Title t1 T (T + 3600))],
        output := [builtEvent e1 e1.Title t1 T (T + 3600),
          builtEvent e2 e2.Title t2 (T + 3600) (T + 7200)],
        collisions := [] } := by
    have h0 : step cid cname
        { ids := [(keyS T e1.ChannelName, e1)],
          spans := [(T, T + 3600)],
          eventByStartTime := [(formatOut (T + 3600), builtEvent e1 e1.Title t1 T (T + 3600))],
          output := [builtEvent e1 e1.Title t1 T (T + 3600)],
          collisions := [] } e2 = acceptOrReject cid cname e2 (T + 3600) (T + 7200)
        { ids := [(keyS (T + 3600) e2.ChannelName, e2), (keyS T e1.ChannelName, e1)],
          spans := [(T, T + 3600)],
          eventByStartTime := [(formatOut (T + 3600), builtEvent e1 e1.Title t1 T (T + 3600))],
          output := [builtEvent e1 e1.Title t1 T (T + 3600)],
          collisions := [] } := by
      simp [step, h2s, h2e, List.lookup, hkne]
    rw [h0, @aor_accept cid cname e2 (T + 3600) (T + 7200) _ t2 ts2 hT2 hany2]
    rfl
  have hfinal : processEvents cid cname initState [e1, e2] = .ok
      { ids := [(keyS (T + 3600) e2.ChannelName, e2), (keyS T e1.ChannelName, e1)],
        spans := [(T, T + 3600), (T + 3600, T + 7200)],
        eventByStartTime :=
          [(formatOut (T + 7200), builtEvent e2 e2.Title t2 (T + 3600) (T + 7200)),
           (formatOut (T + 3600), builtEvent e1 e1.Title t1 T (T + 3600))],
        output := [builtEvent e1 e1.Title t1 T (T + 3600),
          builtEvent e2 e2.Title t2 (T + 3600) (T + 7200)],
        collisions := [] } := by
    simp only [processEvents, hstep1, hstep2]
  exact ⟨_, hfinal, rfl, rfl⟩

/-- Witness for C7: the touching pair `[08:00,09:00)`, `[09:00,10:00)` on
channel Alfa are both accepted. -/
theorem touching_both_accepted_witness :
    parseGoTime evTouch1.Start = some 1498885200 ∧
    parseGoTime evTouch1.Stop = some (1498885200 + 3600) ∧
    parseGoTime evTouch2.Start = some (1498885200 + 3600) ∧
    parseGoTime evTouch2.Stop = some (1498885200 + 7200) ∧
    evTouch1.ChannelName = evTouch2.ChannelName ∧
    evTouch1.Title = ⟨"bg", "chas1"⟩ :: [] ∧
    evTouch2.Title = ⟨"bg", "chas2"⟩ :: [] ∧
    (∃ st', processEvents "1" "Alfa" initState [evTouch1, evTouch2] = .ok st' ∧
      st'.spans = [(1498885200, 1498885200 + 3600),
        (1498885200 + 3600, 1498885200 + 7200)] ∧
      st'.output.length = 2) :=
  ⟨rfl, rfl, rfl, rfl, rfl, rfl, rfl,
   touching_both_accepted "1" "Alfa" evTouch1 evTouch2 1498885200
     ⟨"bg", "chas1"⟩ [] ⟨"bg", "chas2"⟩ [] rfl rfl rfl rfl rfl rfl rfl⟩

/-- Processing a list whose later element is already registered gives the
same result as processing the list without it: the duplicate is dropped
and never replaces anything. -/
theorem pe_skip_registered {cid cname : String} {st : ChanState} {e : programme}
    {n m : Int} (hinv : RegInv st.ids) (hs : parseGoTime e.Start = some n)
    (he : parseGoTime e.Stop = some m)
    (hreg : ∃ w, st.ids.lookup (keyS n e.ChannelName) = some w)
    (l2 l3 : List programme) :
    processEvents cid cname st (l2 ++ e :: l3) = processEvents cid cname st (l2 ++ l3) := by
  induction l2 generalizing st with
  | nil =>
    obtain ⟨w, hw⟩ := hreg
    simp only [List.nil_append, processEvents, step_dup hinv hs he hw]
  | cons e0 es ih =>
    simp only [List.cons_append, processEvents]
    rcases hstep : step cid cname st e0 with er | st1
    · rfl
    · obtain ⟨w, hw⟩ := hreg
      exact ih (step_regInv hinv hstep) ⟨w, step_ids_mono hstep hw⟩

/-- C2: first-in-source-order wins on identity conflicts — when two
events of one channel have the same parsed start instant (hence the same
identity), the run over the list containing both is identical to the run
over the list without the later one: the later event is dropped at the
registry and never replaces the earlier record. -/
theorem first_wins (cid cname : String) (st : ChanState) (l1 l2 l3 : List programme)
    (e1 e2 : programme) (n m2 : Int) (hinv : RegInv st.ids)
    (hch : e1.ChannelName = e2.ChannelName)
    (h1 : parseGoTime e1.Start = some n) (h2 : parseGoTime e2.Start = some n)
    (h2e : parseGoTime e2.Stop = some m2) :
    processEvents cid cname st (l1 ++ e1 :: l2 ++ e2 :: l3) =
      processEvents cid cname st (l1 ++ e1 :: (l2 ++ l3)) := by
  have hL : l1 ++ e1 :: l2 ++ e2 :: l3 = (l1 ++ [e1]) ++ (l2 ++ e2 :: l3) := by simp
  have hR : l1 ++ e1 :: (l2 ++ l3) = (l1 ++ [e1]) ++ (l2 ++ l3) := by simp
  rw [hL, hR, processEvents_append cid cname st (l1 ++ [e1]) (l2 ++ e2 :: l3),
    processEvents_append cid cname st (l1 ++ [e1]) (l2 ++ l3)]
  rcases hA : processEvents cid cname st (l1 ++ [e1]) with er | s1
  · rfl
  · have hinv1 : RegInv s1.ids := pe_regInv hinv hA
    have hmem : e1 ∈ l1 ++ [e1] := by simp
    obtain ⟨n', m', w, hs', hm', hw⟩ := pe_registers_all hA e1 hmem
    rw [h1] at hs'
    obtain rfl : n = n' := Option.some.inj hs'
    have hw2 : s1.ids.lookup (keyS n e2.ChannelName) = some w := by
      rw [← hch]
      exact hw
    exact pe_skip_registered hinv1 h2 h2e ⟨w, hw2⟩ l2 l3

/-- Witness for C2: Scenario A — the same slot from two stacked feeds;
processing both equals processing only the first. -/
theorem first_wins_witness :
    RegInv initState.ids ∧
    evMorning.ChannelName = evMorningDup.ChannelName ∧
    parseGoTime evMorning.Start = some 1498885200 ∧
    parseGoTime evMorningDup.Start = some 1498885200 ∧
    parseGoTime evMorningDup.Stop = some 1498892400 ∧
    processEvents "1" "Alfa" initState ([] ++ evMorning :: [] ++ evMorningDup :: []) =
      processEvents "1" "Alfa" initState ([] ++ evMorning :: ([] ++ [])) :=
  ⟨regInv_nil, rfl, rfl, rfl, rfl,
   first_wins "1" "Alfa" initState [] [] [] evMorning evMorningDup 1498885200 1498892400
     regInv_nil rfl rfl rfl rfl⟩

/-- When every event of the list is already registered, the whole channel
pass leaves the state unchanged (apart from the per-channel reset) and
accepts nothing. -/
theorem pchan_all_skipped {st : ChanState} {cid cname : String} {evs : List programme}
    (hinv : RegInv st.ids)
    (hall : ∀ e ∈ evs, ∃ n m w, parseGoTime e.Start = some n ∧
      parseGoTime e.Stop = some m ∧ st.ids.lookup (keyS n e.ChannelName) = some w) :
    processChannel st cid cname evs = .ok (resetChan st) := by
  have hinv' : RegInv (resetChan st).ids := hinv
  have hall' : ∀ e ∈ evs, ∃ n m w, parseGoTime e.Start = some n ∧
      parseGoTime e.Stop = some m ∧ (resetChan st).ids.lookup (keyS n e.ChannelName) = some w :=
    hall
  exact pe_all_skipped hinv' hall'

/-- C9: the identity registry is run-wide.  If the requested-channel list
contains two entries with the same display name (and that name has raw
events), every event of the later entry hits an identity registered while
processing the earlier one, so the later entry's output document is
written with an empty event sequence. -/
theorem shared_registry_duplicate_channel (progs : List programme)
    (l1 l2 l3 : List requestedChannel) (c1 c2 : requestedChannel)
    (st st' : ChanState) (out : List (requestedChannel × List outputEvent))
    (hinv : RegInv st.ids) (hname : c1.Name = c2.Name)
    (hne : (eventsFor progs c2.Name).isEmpty = false)
    (hrun : processChannels progs st (l1 ++ c1 :: l2 ++ c2 :: l3) = .ok (st', out)) :
    ∃ pre suf, out = pre ++ (c2, []) :: suf ∧
      pre.length = countWritten progs (l1 ++ c1 :: l2) := by
  have hL : l1 ++ c1 :: l2 ++ c2 :: l3 = (l1 ++ c1 :: l2) ++ (c2 :: l3) := by simp
  rw [hL, processChannels_append] at hrun
  rcases hA : processChannels progs st (l1 ++ c1 :: l2) with er | ⟨sA, outA⟩
  · simp only [hA] at hrun
    exact absurd hrun (by simp)
  · simp only [hA] at hrun
    -- decompose the first part to reach the processing of c1
    have hA' := hA
    rw [processChannels_append] at hA'
    rcases hB : processChannels progs st l1 with er | ⟨sB, outB⟩
    · simp only [hB] at hA'
      exact absurd hA' (by simp)
    · simp only [hB, processChannels] at hA'
      have hne1 : (eventsFor progs c1.Name).isEmpty = false := by
        rw [hname]
        exact hne
      rw [hne1] at hA'
      simp only [Bool.false_eq_true, if_false] at hA'
      rcases hC : processChannel sB c1.ID c1.Name (eventsFor progs c1.Name) with er | sC
      · simp only [hC] at hA'
        exact absurd hA' (by simp)
      · simp only [hC] at hA'
        rcases hD : processChannels progs sC l2 with er | ⟨sD, outD⟩
        · simp only [hD] at hA'
          exact absurd hA' (by simp)
        · simp only [hD, Except.ok.injEq, Prod.mk.injEq] at hA'
          obtain ⟨rfl, -⟩ := hA'
          -- every event of the shared name is registered in sA = sD
          have hCreg : ∀ e ∈ eventsFor progs c2.Name, ∃ n m w,
              parseGoTime e.Start = some n ∧ parseGoTime e.Stop = some m ∧
              sD.ids.lookup (keyS n e.ChannelName) = some w := by
            intro e he
            rw [← hname] at he
            have hC' : processEvents c1.ID c1.Name (resetChan sB)
                (eventsFor progs c1.Name) = .ok sC := hC
            obtain ⟨n, m, w, hs, hm, hw⟩ := pe_registers_all hC' e he
            exact ⟨n, m, w, hs, hm, pc_ids_mono hD hw⟩
          have hinvA : RegInv sD.ids :=
            pc_regInv (pchan_regInv (pc_regInv hinv hB) hC) hD
          -- the processing of c2 accepts nothing
          simp only [processChannels] at hrun
          rw [hne] at hrun
          simp only [Bool.false_eq_true, if_false] at hrun
          simp only [pchan_all_skipped hinvA hCreg] at hrun
          rcases hE : processChannels progs (resetChan sD) l3 with er | ⟨sE, outE⟩
          · simp only [hE] at hrun
            exact absurd hrun (by simp)
          · simp only [hE, Except.ok.injEq, Prod.mk.injEq] at hrun
            exact ⟨outA, outE, hrun.2.symm, pc_out_length hA⟩

/-- The final state of the duplicate-channel run. -/
def w9State : ChanState :=
  match processChannels [evMorning] initState [chAlfa, chAlfaDup] with
  | .ok p => p.1
  | .error _ => initState

/-- The output documents of the duplicate-channel run. -/
def w9Out : List (requestedChannel × List outputEvent) :=
  match processChannels [evMorning] initState [chAlfa, chAlfaDup] with
  | .ok p => p.2
  | .error _ => []

/-- Witness for C9: with the allow-list naming channel `Alfa` twice, the
second entry's document is written with an empty event sequence. -/
theorem shared_registry_duplicate_channel_witness :
    RegInv initState.ids ∧
    chAlfa.Name = chAlfaDup.Name ∧
    (eventsFor [evMorning] chAlfaDup.Name).isEmpty = false ∧
    processChannels [evMorning] initState ([] ++ chAlfa :: [] ++ chAlfaDup :: []) =
      .ok (w9State, w9Out) ∧
    (∃ pre suf, w9Out = pre ++ (chAlfaDup, []) :: suf ∧
      pre.length = countWritten [evMorning] ([] ++ chAlfa :: [])) :=
  ⟨regInv_nil, rfl, rfl, by rfl,
   shared_registry_duplicate_channel [evMorning] [] [] [] chAlfa chAlfaDup initState
     w9State w9Out regInv_nil rfl rfl (by rfl)⟩

/-- Witness for C10: the Scenario-B registry hit for `evMorningDup`
returns the stored `evMorning`, whose channel name agrees. -/
theorem registry_hit_channel_agreement_witness :
    RegInv w6State.ids ∧
    parseGoTime evMorningDup.Start = some 1498885200 ∧
    w6State.ids.lookup (keyS 1498885200 evMorningDup.ChannelName) = some evMorning ∧
    evMorning.ChannelName = evMorningDup.ChannelName := by
  have hinv : RegInv w6State.ids :=
    pe_regInv regInv_nil
      (by rfl : processEvents "1" "Alfa" initState [evMorning, evOverlap] = .ok w6State)
  exact ⟨hinv, rfl, by rfl,
    registry_hit_channel_agreement.2.2 w6State evMorningDup 1498885200 evMorning
      hinv rfl (by rfl)⟩

end Epg
